import Mathlib

/-!
# Verification of the vox2organ mesh-deformation core

Shallow embedding of the batched multi-structure mesh container
(`MeshesOfMeshes`, `src/utils/mesh.py`), the packed/padded conversion
utilities (`vox2organ/utils/utils_padded_packed.py`), and the graph decoder
(`src/models/graph_net.py`), together with spec-modelled definitions for
the uniform unpooling and trilinear feature aggregation whose source files
are not part of the repository snapshot.

Tensors are modelled as a dynamic-rank shape plus a row-major flattened
data list of integers, which is faithful to the shape/ndim checks and the
index arithmetic the claims are about.
-/

/-- A tensor: dynamic-rank shape together with row-major flattened data.
`shape.length` plays the role of `Tensor.ndim` in PyTorch. -/
structure Tensor where
  shape : List Nat
  data : List Int
  deriving DecidableEq

/-- A tensor is well formed when its flattened data has exactly
`shape.prod` entries. -/
def Tensor.wf (t : Tensor) : Prop := t.data.length = t.shape.prod

instance (t : Tensor) : Decidable t.wf := by
  unfold Tensor.wf; infer_instance

/-- Split a flat list into `count` consecutive groups of `width` elements,
mirroring a row-major `view` into rows. -/
def chunkN {α : Type} : Nat → List α → Nat → List (List α)
  | 0, _, _ => []
  | count + 1, data, width => data.take width :: chunkN count (data.drop width) width

/-- `view(-1, width)` on a flat data list: rows of `width` entries. -/
def viewRows (data : List Int) (width : Nat) : List (List Int) :=
  chunkN (data.length / width) data width

/-- The batched multi-structure mesh container of `src/utils/mesh.py`.
`ndims` is `verts.shape[-1]`, fixed at construction.  `edgesCache` models
the `_edges_packed` memoization field (initially `None`). -/
structure MeshesOfMeshes where
  vertsPadded : Tensor
  facesPadded : Tensor
  featuresPadded : Option Tensor
  edgesCache : Option (List (List Int))
  ndims : Nat
  deriving DecidableEq

namespace MeshesOfMeshes

/-- `MeshesOfMeshes.update_features`: replaces the feature tensor after
checking `features.shape[:-1] == verts.shape[:-1]`. -/
def update_features (m : MeshesOfMeshes) (features : Tensor) :
    Except String MeshesOfMeshes :=
  if features.shape.dropLast ≠ m.vertsPadded.shape.dropLast then
    .error "Invalid feature shape."
  else
    .ok { m with featuresPadded := some features }

/-- `MeshesOfMeshes.__init__`: requires `verts`, `faces` (and `features`,
when given) to be 4D tensors, then stores them; features go through
`update_features`.  No comparison between the vertex and face shapes is
performed. -/
def init (verts faces : Tensor) (features : Option Tensor) :
    Except String MeshesOfMeshes :=
  if verts.shape.length ≠ 4 then
    .error "Vertices are required to be a 4D tensor."
  else if faces.shape.length ≠ 4 then
    .error "Faces are required to be a 4D tensor."
  else
    match features with
    | none =>
        .ok { vertsPadded := verts, facesPadded := faces,
              featuresPadded := none, edgesCache := none,
              ndims := verts.shape.getLastD 0 }
    | some f =>
        if f.shape.length ≠ 4 then
          .error "Features are required to be a 4D tensor."
        else
          update_features
            { vertsPadded := verts, facesPadded := faces,
              featuresPadded := none, edgesCache := none,
              ndims := verts.shape.getLastD 0 } f

/-- `verts_padded`. -/
def verts_padded (m : MeshesOfMeshes) : Tensor := m.vertsPadded

/-- `faces_padded`. -/
def faces_padded (m : MeshesOfMeshes) : Tensor := m.facesPadded

/-- The per-row offset list `add_index` of `faces_packed`:
`cat([ones(F) * i * V for i in range(N*M)])`. -/
def addIndex (NM F V : Nat) : List Int :=
  (List.range NM).flatMap (fun i => List.replicate F ((i * V : Nat) : Int))

/-- `faces_packed`: read `N, M, V` from the vertex shape and `F` from the
face shape, view the faces as rows of `ndims` entries and add
`i * V` to every entry of the rows of flat unit `i`. -/
def faces_packed (m : MeshesOfMeshes) : List (List Int) :=
  let N := m.vertsPadded.shape.getD 0 0
  let M := m.vertsPadded.shape.getD 1 0
  let V := m.vertsPadded.shape.getD 2 0
  let F := m.facesPadded.shape.getD 2 0
  List.zipWith (fun (row : List Int) (a : Int) => row.map (· + a))
    (viewRows m.facesPadded.data m.ndims) (addIndex (N * M) F V)

/-- `verts_packed`: `view(-1, ndims)` of the padded vertex tensor. -/
def verts_packed (m : MeshesOfMeshes) : List (List Int) :=
  viewRows m.vertsPadded.data m.ndims

/-- Entry access into the packed face view (row `r`, column `c`). -/
def facesPackedEntry (m : MeshesOfMeshes) (r c : Nat) : Int :=
  ((m.faces_packed.getD r []).getD c 0)

/-- Entry access into the packed vertex view (row `r`, column `c`). -/
def vertsPackedEntry (m : MeshesOfMeshes) (r c : Nat) : Int :=
  ((m.verts_packed.getD r []).getD c 0)

/-- The edge computation of `edges_packed` (without the cache): for 3D
faces the packed rows are split into columns `v0, v1, v2` and the edge
rows `e12 ++ e20 ++ e01` are returned; otherwise faces are already
edge-like and returned unchanged. -/
def computeEdges (m : MeshesOfMeshes) : List (List Int) :=
  if m.ndims = 3 then
    let faces := m.faces_packed
    let e12 := faces.map (fun row => [row.getD 1 0, row.getD 2 0])
    let e20 := faces.map (fun row => [row.getD 2 0, row.getD 0 0])
    let e01 := faces.map (fun row => [row.getD 0 0, row.getD 1 0])
    e12 ++ e20 ++ e01
  else
    m.faces_packed

/-- `edges_packed`: computes the edges on first call and caches them in
`_edges_packed`; later calls return the cached tensor. -/
def edges_packed (m : MeshesOfMeshes) : List (List Int) × MeshesOfMeshes :=
  match m.edgesCache with
  | some e => (e, m)
  | none =>
      let e := m.computeEdges
      (e, { m with edgesCache := some e })

/-- `move_verts`: adds an offset tensor to the padded vertices after
checking that the offset shape equals the vertex shape. -/
def move_verts (m : MeshesOfMeshes) (offset : Tensor) :
    Except String MeshesOfMeshes :=
  if offset.shape ≠ m.vertsPadded.shape then
    .error "Invalid offset."
  else
    .ok { m with vertsPadded :=
      { shape := m.vertsPadded.shape,
        data := List.zipWith (· + ·) m.vertsPadded.data offset.data } }

end MeshesOfMeshes

section IndexLemmas

theorem chunkN_getElem {α : Type} (count : Nat) :
    ∀ (data : List α) (width r : Nat), r < count →
      (chunkN count data width)[r]? = some ((data.drop (r * width)).take width) := by
  induction count with
  | zero => intro data width r h; omega
  | succ c ih =>
      intro data width r h
      cases r with
      | zero => simp [chunkN]
      | succ r =>
          have h1 : (chunkN (c + 1) data width)[r + 1]? =
              (chunkN c (data.drop width) width)[r]? := by
            simp [chunkN]
          rw [h1, ih (data.drop width) width r (by omega), List.drop_drop]
          have h2 : width + r * width = (r + 1) * width := by ring
          rw [h2]

theorem addIndex_eq_map (NM F V : Nat) :
    MeshesOfMeshes.addIndex NM F V =
      (List.range (NM * F)).map (fun r => ((r / F * V : Nat) : Int)) := by
  induction NM with
  | zero => simp [MeshesOfMeshes.addIndex]
  | succ n ih =>
      rw [MeshesOfMeshes.addIndex, List.range_succ, List.flatMap_append,
        ← MeshesOfMeshes.addIndex, ih]
      have hr : (n + 1) * F = n * F + F := by ring
      rw [hr, List.range_add, List.map_append, List.map_map]
      congr 1
      have hstep : ∀ x ∈ List.range F,
          (((fun r => ((r / F * V : Nat) : Int)) ∘ fun x => n * F + x) x) =
            ((n * V : Nat) : Int) := by
        intro x hx
        have hxF : x < F := List.mem_range.mp hx
        have hF : 0 < F := by omega
        have hdiv : (n * F + x) / F = n := by
          rw [Nat.add_comm, Nat.mul_comm, Nat.add_mul_div_left x n hF,
            Nat.div_eq_of_lt hxF, Nat.zero_add]
        simp [Function.comp, hdiv]
      rw [List.map_congr_left hstep, List.map_const']
      simp [List.flatMap, List.length_range]

theorem zipWith_getElem {α β γ : Type} (f : α → β → γ) :
    ∀ (as : List α) (bs : List β) (i : Nat) (a : α) (b : β),
      as[i]? = some a → bs[i]? = some b →
      (List.zipWith f as bs)[i]? = some (f a b) := by
  intro as
  induction as with
  | nil => intro bs i a b ha _; simp at ha
  | cons x xs ih =>
      intro bs i a b ha hb
      cases bs with
      | nil => simp at hb
      | cons y ys =>
          cases i with
          | zero =>
              simp only [List.getElem?_cons_zero, Option.some_inj] at ha hb
              simp [ha, hb]
          | succ i =>
              simp only [List.getElem?_cons_succ] at ha hb
              simpa using ih ys i a b ha hb

end IndexLemmas

section PackedIndexing

/-- Entry formula for the packed face view: for a mesh holding well-formed
padded tensors of the declared shapes, the packed entry at row `r`,
column `c` is the padded entry plus the offset `(r / F) * V`. -/
theorem facesPackedEntry_eq
    (N M V F D : Nat) (verts faces : Tensor) (msh : MeshesOfMeshes)
    (hmsh : msh = ⟨verts, faces, none, none, D⟩)
    (hvs : verts.shape = [N, M, V, D])
    (hfs : faces.shape = [N, M, F, D])
    (hfw : faces.wf)
    (r c : Nat) (hr : r < N * M * F) (hc : c < D) :
    msh.facesPackedEntry r c =
      faces.data.getD (r * D + c) 0 + ((r / F * V : Nat) : Int) := by
  subst hmsh
  have hD : 0 < D := by omega
  have hlen : faces.data.length = N * M * F * D := by
    rw [hfw, hfs]; simp [List.prod]; ring
  have hrows : viewRows faces.data D = chunkN (N * M * F) faces.data D := by
    unfold viewRows
    rw [hlen, Nat.mul_div_cancel _ hD]
  have hrowsr : (viewRows faces.data D)[r]? =
      some ((faces.data.drop (r * D)).take D) := by
    rw [hrows]; exact chunkN_getElem (N * M * F) faces.data D r hr
  have hai : (MeshesOfMeshes.addIndex (N * M) F V)[r]? =
      some ((r / F * V : Nat) : Int) := by
    rw [addIndex_eq_map, List.getElem?_map, List.getElem?_range
      (show r < N * M * F from hr)]
    rfl
  have hfp : MeshesOfMeshes.faces_packed ⟨verts, faces, none, none, D⟩ =
      List.zipWith (fun (row : List Int) (a : Int) => row.map (· + a))
        (viewRows faces.data D) (MeshesOfMeshes.addIndex (N * M) F V) := by
    unfold MeshesOfMeshes.faces_packed
    rw [hvs, hfs]
    rfl
  have hzip : (MeshesOfMeshes.faces_packed ⟨verts, faces, none, none, D⟩)[r]? =
      some (((faces.data.drop (r * D)).take D).map
        (· + ((r / F * V : Nat) : Int))) := by
    rw [hfp]
    exact zipWith_getElem _ _ _ r _ _ hrowsr hai
  have hentry : ((faces.data.drop (r * D)).take D)[c]? =
      faces.data[r * D + c]? := by
    rw [List.getElem?_take]
    simp only [hc, if_true]
    rw [List.getElem?_drop]
  have hidx : r * D + c < faces.data.length := by
    rw [hlen]
    calc r * D + c < r * D + D := by omega
    _ = (r + 1) * D := by ring
    _ ≤ N * M * F * D := Nat.mul_le_mul_right D (by omega)
  unfold MeshesOfMeshes.facesPackedEntry
  simp only [List.getD_eq_getElem?_getD]
  rw [hzip]
  simp only [Option.getD_some]
  rw [List.getElem?_map, hentry, List.getElem?_eq_getElem hidx]
  rfl

/-- Entry formula for the packed vertex view: packed row `p`, column `k`
reads the flat vertex data at `p * D + k`. -/
theorem vertsPackedEntry_eq
    (N M V D : Nat) (verts faces : Tensor) (msh : MeshesOfMeshes)
    (hmsh : msh = ⟨verts, faces, none, none, D⟩)
    (hvs : verts.shape = [N, M, V, D])
    (hvw : verts.wf)
    (p k : Nat) (hp : p < N * M * V) (hk : k < D) :
    msh.vertsPackedEntry p k = verts.data.getD (p * D + k) 0 := by
  subst hmsh
  have hD : 0 < D := by omega
  have hlen : verts.data.length = N * M * V * D := by
    rw [hvw, hvs]; simp [List.prod]; ring
  have hrows : viewRows verts.data D = chunkN (N * M * V) verts.data D := by
    unfold viewRows
    rw [hlen, Nat.mul_div_cancel _ hD]
  have hrowsp : (viewRows verts.data D)[p]? =
      some ((verts.data.drop (p * D)).take D) := by
    rw [hrows]; exact chunkN_getElem (N * M * V) verts.data D p hp
  have hentry : ((verts.data.drop (p * D)).take D)[k]? =
      verts.data[p * D + k]? := by
    rw [List.getElem?_take]
    simp only [hk, if_true]
    rw [List.getElem?_drop]
  unfold MeshesOfMeshes.vertsPackedEntry MeshesOfMeshes.verts_packed
  simp only [List.getD_eq_getElem?_getD]
  rw [hrowsp]
  simp only [Option.getD_some]
  rw [hentry]

end PackedIndexing

section C5C9

/-- Inverting a successful featureless construction: the resulting mesh is
the record with `ndims = shape[-1]`. -/
theorem meshesInit_ok_elim
    (N M V D : Nat) (verts faces : Tensor) (msh : MeshesOfMeshes)
    (hinit : MeshesOfMeshes.init verts faces none = .ok msh)
    (hvs : verts.shape = [N, M, V, D])
    (hfs : faces.shape = [N, M, F, D]) :
    msh = ⟨verts, faces, none, none, D⟩ := by
  unfold MeshesOfMeshes.init at hinit
  have h4v : ¬verts.shape.length ≠ 4 := by rw [hvs]; simp
  have h4f : ¬faces.shape.length ≠ 4 := by rw [hfs]; simp
  rw [if_neg h4v, if_neg h4f] at hinit
  have hgl : verts.shape.getLastD 0 = D := by rw [hvs]; rfl
  rw [hgl] at hinit
  exact (Except.ok.inj hinit).symm

/-- C5: in `faces_packed`, the entry of face slot `f`, column `c` of batch
sample `n` and structure `mm` is the padded entry offset by
`(n * M + mm) * V`; whenever the padded entry is a valid local vertex
index `v < V`, the packed index equals `(n * M + mm) * V + v`, lies inside
the packed vertex buffer of `N * M * V` rows, recovers its unit as
`index / V` and its local index as `index % V` (hence is globally unique),
and the packed vertex row it addresses is exactly the flat-data row of
vertex `v` of unit `(n, mm)`. -/
theorem C5_faces_packed_global_indexing
    (N M V F D n mm f c : Nat) (verts faces : Tensor) (msh : MeshesOfMeshes)
    (hinit : MeshesOfMeshes.init verts faces none = .ok msh)
    (hvs : verts.shape = [N, M, V, D])
    (hfs : faces.shape = [N, M, F, D])
    (hvw : verts.wf) (hfw : faces.wf)
    (hn : n < N) (hm : mm < M) (hf : f < F) (hc : c < D) :
    msh.facesPackedEntry ((n * M + mm) * F + f) c =
      faces.data.getD (((n * M + mm) * F + f) * D + c) 0 +
        (((n * M + mm) * V : Nat) : Int) ∧
    (∀ v : Nat, v < V →
      faces.data.getD (((n * M + mm) * F + f) * D + c) 0 = (v : Int) →
      msh.facesPackedEntry ((n * M + mm) * F + f) c =
          (((n * M + mm) * V + v : Nat) : Int) ∧
        (n * M + mm) * V + v < N * M * V ∧
        ((n * M + mm) * V + v) / V = n * M + mm ∧
        ((n * M + mm) * V + v) % V = v ∧
        (∀ k : Nat, k < D →
          msh.vertsPackedEntry ((n * M + mm) * V + v) k =
            verts.data.getD (((n * M + mm) * V + v) * D + k) 0)) := by
  have hmsh := meshesInit_ok_elim N M V D verts faces msh hinit hvs hfs
  have hunit : n * M + mm < N * M := by
    calc n * M + mm < n * M + M := by omega
    _ = (n + 1) * M := by ring
    _ ≤ N * M := Nat.mul_le_mul_right M (by omega)
  have hr : (n * M + mm) * F + f < N * M * F := by
    calc (n * M + mm) * F + f < (n * M + mm) * F + F := by omega
    _ = ((n * M + mm) + 1) * F := by ring
    _ ≤ N * M * F := Nat.mul_le_mul_right F (by omega)
  have hdiv : ((n * M + mm) * F + f) / F = n * M + mm := by
    have hF : 0 < F := by omega
    rw [Nat.mul_comm (n * M + mm) F, Nat.mul_add_div hF, Nat.div_eq_of_lt hf,
      Nat.add_zero]
  have hmain := facesPackedEntry_eq N M V F D verts faces msh hmsh hvs hfs hfw
    ((n * M + mm) * F + f) c hr hc
  rw [hdiv] at hmain
  refine ⟨hmain, ?_⟩
  intro v hv hval
  have hV : 0 < V := by omega
  have hentry : msh.facesPackedEntry ((n * M + mm) * F + f) c =
      (((n * M + mm) * V + v : Nat) : Int) := by
    rw [hmain, hval]; omega
  have hidx : (n * M + mm) * V + v < N * M * V := by
    calc (n * M + mm) * V + v < (n * M + mm) * V + V := by omega
    _ = ((n * M + mm) + 1) * V := by ring
    _ ≤ N * M * V := Nat.mul_le_mul_right V (by omega)
  have hdivV : ((n * M + mm) * V + v) / V = n * M + mm := by
    rw [Nat.mul_comm (n * M + mm) V, Nat.mul_add_div hV, Nat.div_eq_of_lt hv,
      Nat.add_zero]
  have hmodV : ((n * M + mm) * V + v) % V = v := by
    rw [Nat.mul_comm (n * M + mm) V, Nat.mul_add_mod, Nat.mod_eq_of_lt hv]
  refine ⟨hentry, hidx, hdivV, hmodV, ?_⟩
  intro k hk
  exact vertsPackedEntry_eq N M V D verts faces msh hmsh hvs hvw
    ((n * M + mm) * V + v) k hidx hk

/-- Concrete vertex tensor for the C5/C9 witnesses: shape (1,2,2,3). -/
def wVerts : Tensor :=
  { shape := [1, 2, 2, 3], data := [0, 1, 2, 3, 4, 5, 6, 7, 8, 9, 10, 11] }

/-- Concrete face tensor for the C5 witness: shape (1,2,1,3), unit 1 holds
the face (1,0,0). -/
def wFaces : Tensor :=
  { shape := [1, 2, 1, 3], data := [0, 1, 1, 1, 0, 0] }

/-- Witness for C5 at `N=1, M=2, V=2, F=1, D=3`, unit `(0,1)`, face slot 0,
column 0: the packed entry is the padded one offset by `1 * 2 = 2`. -/
theorem C5_witness :
    MeshesOfMeshes.facesPackedEntry
        ⟨wVerts, wFaces, none, none, 3⟩ ((0 * 2 + 1) * 1 + 0) 0 =
      wFaces.data.getD (((0 * 2 + 1) * 1 + 0) * 3 + 0) 0 +
        (((0 * 2 + 1) * 2 : Nat) : Int) :=
  (C5_faces_packed_global_indexing 1 2 2 1 3 0 1 0 0 wVerts wFaces
     ⟨wVerts, wFaces, none, none, 3⟩ rfl rfl rfl (by decide) (by decide)
     (by decide) (by decide) (by decide) (by decide)).1

/-- C9: a padded face slot holding the sentinel `-1` in flat unit
`i = n * M + mm > 0` is returned by `faces_packed` as `i * V - 1`, which
equals `(i - 1) * V + (V - 1)` — the last vertex of the previous unit —
and is a valid (in-range, non-negative) index into the packed vertex
buffer, so packing does not preserve the out-of-range sentinel property. -/
theorem C9_sentinel_becomes_valid_index
    (N M V F D n mm f c : Nat) (verts faces : Tensor) (msh : MeshesOfMeshes)
    (hinit : MeshesOfMeshes.init verts faces none = .ok msh)
    (hvs : verts.shape = [N, M, V, D])
    (hfs : faces.shape = [N, M, F, D])
    (hfw : faces.wf)
    (hn : n < N) (hm : mm < M) (hf : f < F) (hc : c < D)
    (hV : 0 < V) (hpos : 0 < n * M + mm)
    (hval : faces.data.getD (((n * M + mm) * F + f) * D + c) 0 = -1) :
    msh.facesPackedEntry ((n * M + mm) * F + f) c =
        (((n * M + mm) * V : Nat) : Int) - 1 ∧
    (((n * M + mm) * V : Nat) : Int) - 1 =
        ((((n * M + mm) - 1) * V + (V - 1) : Nat) : Int) ∧
    0 ≤ (((n * M + mm) * V : Nat) : Int) - 1 ∧
    (((n * M + mm) * V : Nat) : Int) - 1 < ((N * M * V : Nat) : Int) := by
  have hmsh := meshesInit_ok_elim N M V D verts faces msh hinit hvs hfs
  have hunit : n * M + mm < N * M := by
    calc n * M + mm < n * M + M := by omega
    _ = (n + 1) * M := by ring
    _ ≤ N * M := Nat.mul_le_mul_right M (by omega)
  have hr : (n * M + mm) * F + f < N * M * F := by
    calc (n * M + mm) * F + f < (n * M + mm) * F + F := by omega
    _ = ((n * M + mm) + 1) * F := by ring
    _ ≤ N * M * F := Nat.mul_le_mul_right F (by omega)
  have hdiv : ((n * M + mm) * F + f) / F = n * M + mm := by
    have hF : 0 < F := by omega
    rw [Nat.mul_comm (n * M + mm) F, Nat.mul_add_div hF, Nat.div_eq_of_lt hf,
      Nat.add_zero]
  have hmain := facesPackedEntry_eq N M V F D verts faces msh hmsh hvs hfs hfw
    ((n * M + mm) * F + f) c hr hc
  rw [hdiv, hval] at hmain
  have hone : 1 ≤ (n * M + mm) * V :=
    Nat.one_le_iff_ne_zero.mpr (Nat.mul_ne_zero (by omega) (by omega))
  have hprev : ((n * M + mm) - 1) * V + (V - 1) = (n * M + mm) * V - 1 := by
    have h1 : ((n * M + mm) - 1) * V = (n * M + mm) * V - V := by
      rw [Nat.sub_mul, Nat.one_mul]
    have h2 : V ≤ (n * M + mm) * V := Nat.le_mul_of_pos_left V hpos
    omega
  have hbound : (n * M + mm) * V ≤ N * M * V := Nat.mul_le_mul_right V (by omega)
  refine ⟨by rw [hmain]; omega, by rw [hprev]; omega, ?_, ?_⟩
  · omega
  · omega

/-- Concrete face tensor for the C9 witness: shape (1,2,1,3), unit 1 holds
a padded slot with the sentinel -1 in its first column. -/
def wFacesSentinel : Tensor :=
  { shape := [1, 2, 1, 3], data := [0, 1, 1, -1, -1, -1] }

/-- Witness for C9 at `N=1, M=2, V=2, F=1, D=3`, unit `i = 1`: the packed
sentinel entry is `1 * 2 - 1 = 1`, the last vertex of unit 0. -/
theorem C9_witness :
    wFacesSentinel.data.getD (((0 * 2 + 1) * 1 + 0) * 3 + 0) 0 = -1 ∧
    (MeshesOfMeshes.facesPackedEntry ⟨wVerts, wFacesSentinel, none, none, 3⟩
        ((0 * 2 + 1) * 1 + 0) 0 = (((0 * 2 + 1) * 2 : Nat) : Int) - 1 ∧
      (((0 * 2 + 1) * 2 : Nat) : Int) - 1 =
        ((((0 * 2 + 1) - 1) * 2 + (2 - 1) : Nat) : Int) ∧
      0 ≤ (((0 * 2 + 1) * 2 : Nat) : Int) - 1 ∧
      (((0 * 2 + 1) * 2 : Nat) : Int) - 1 < ((1 * 2 * 2 : Nat) : Int)) :=
  ⟨by decide,
   C9_sentinel_becomes_valid_index 1 2 2 1 3 0 1 0 0 wVerts wFacesSentinel
     ⟨wVerts, wFacesSentinel, none, none, 3⟩ rfl rfl rfl (by decide)
     (by decide) (by decide) (by decide) (by decide) (by decide) (by decide)
     (by decide)⟩

end C5C9

section C10

/-- Public mutating operations of `MeshesOfMeshes` interleaved by a
caller: `move_verts`, `update_features` and `edges_packed`. -/
inductive MeshOp where
  | moveVerts (offset : Tensor)
  | updateFeatures (features : Tensor)
  | edgesPackedCall
  deriving DecidableEq

/-- One public call on the container.  A call that raises (shape mismatch)
leaves the object unchanged, since the checks precede any assignment. -/
def applyOp (m : MeshesOfMeshes) : MeshOp → MeshesOfMeshes
  | .moveVerts offset =>
      match m.move_verts offset with
      | .ok m' => m'
      | .error _ => m
  | .updateFeatures features =>
      match m.update_features features with
      | .ok m' => m'
      | .error _ => m
  | .edgesPackedCall => (m.edges_packed).2

/-- A sequence of interleaved public calls. -/
def applyOps (m : MeshesOfMeshes) (ops : List MeshOp) : MeshesOfMeshes :=
  ops.foldl applyOp m

/-- The `_edges_packed` cache is either unset or holds exactly the edges
derived from the current faces; every state freshly constructed by
`__init__` satisfies this. -/
def edgesConsistent (m : MeshesOfMeshes) : Prop :=
  m.edgesCache = none ∨ m.edgesCache = some m.computeEdges

theorem applyOp_facesPadded (m : MeshesOfMeshes) (op : MeshOp) :
    (applyOp m op).facesPadded = m.facesPadded := by
  cases op with
  | moveVerts offset =>
      by_cases h : offset.shape ≠ m.vertsPadded.shape <;>
        simp [applyOp, MeshesOfMeshes.move_verts, h]
  | updateFeatures features =>
      by_cases h : features.shape.dropLast ≠ m.vertsPadded.shape.dropLast <;>
        simp [applyOp, MeshesOfMeshes.update_features, h]
  | edgesPackedCall =>
      unfold applyOp MeshesOfMeshes.edges_packed
      cases m.edgesCache <;> rfl

theorem applyOp_vertsShape (m : MeshesOfMeshes) (op : MeshOp) :
    (applyOp m op).vertsPadded.shape = m.vertsPadded.shape := by
  cases op with
  | moveVerts offset =>
      by_cases h : offset.shape ≠ m.vertsPadded.shape <;>
        simp [applyOp, MeshesOfMeshes.move_verts, h]
  | updateFeatures features =>
      by_cases h : features.shape.dropLast ≠ m.vertsPadded.shape.dropLast <;>
        simp [applyOp, MeshesOfMeshes.update_features, h]
  | edgesPackedCall =>
      unfold applyOp MeshesOfMeshes.edges_packed
      cases m.edgesCache <;> rfl

theorem applyOp_ndims (m : MeshesOfMeshes) (op : MeshOp) :
    (applyOp m op).ndims = m.ndims := by
  cases op with
  | moveVerts offset =>
      by_cases h : offset.shape ≠ m.vertsPadded.shape <;>
        simp [applyOp, MeshesOfMeshes.move_verts, h]
  | updateFeatures features =>
      by_cases h : features.shape.dropLast ≠ m.vertsPadded.shape.dropLast <;>
        simp [applyOp, MeshesOfMeshes.update_features, h]
  | edgesPackedCall =>
      unfold applyOp MeshesOfMeshes.edges_packed
      cases m.edgesCache <;> rfl

theorem faces_packed_congr (m m' : MeshesOfMeshes)
    (hs : m'.vertsPadded.shape = m.vertsPadded.shape)
    (hf : m'.facesPadded = m.facesPadded)
    (hd : m'.ndims = m.ndims) :
    m'.faces_packed = m.faces_packed := by
  unfold MeshesOfMeshes.faces_packed
  rw [hs, hf, hd]

theorem computeEdges_congr (m m' : MeshesOfMeshes)
    (hs : m'.vertsPadded.shape = m.vertsPadded.shape)
    (hf : m'.facesPadded = m.facesPadded)
    (hd : m'.ndims = m.ndims) :
    m'.computeEdges = m.computeEdges := by
  unfold MeshesOfMeshes.computeEdges
  rw [faces_packed_congr m m' hs hf hd, hd]

theorem applyOp_computeEdges (m : MeshesOfMeshes) (op : MeshOp) :
    (applyOp m op).computeEdges = m.computeEdges :=
  computeEdges_congr m (applyOp m op) (applyOp_vertsShape m op)
    (applyOp_facesPadded m op) (applyOp_ndims m op)

theorem applyOp_edgesConsistent (m : MeshesOfMeshes) (op : MeshOp)
    (h : edgesConsistent m) : edgesConsistent (applyOp m op) := by
  have hce := applyOp_computeEdges m op
  cases op with
  | moveVerts offset =>
      by_cases hc : offset.shape ≠ m.vertsPadded.shape <;>
        · rcases h with h | h <;>
            simp_all [applyOp, MeshesOfMeshes.move_verts, edgesConsistent, hc]
  | updateFeatures features =>
      by_cases hc : features.shape.dropLast ≠ m.vertsPadded.shape.dropLast <;>
        · rcases h with h | h <;>
            simp_all [applyOp, MeshesOfMeshes.update_features, edgesConsistent, hc]
  | edgesPackedCall =>
      rcases h with h | h <;>
        simp_all [applyOp, MeshesOfMeshes.edges_packed, edgesConsistent, h, hce]

/-- Under the cache invariant, `edges_packed` returns the edges derived
from the current faces, whether cached or not. -/
theorem edges_packed_fst (m : MeshesOfMeshes) (h : edgesConsistent m) :
    (m.edges_packed).1 = m.computeEdges := by
  rcases h with h | h <;> simp [MeshesOfMeshes.edges_packed, h]

theorem applyOps_facesPadded (ops : List MeshOp) :
    ∀ m : MeshesOfMeshes, (applyOps m ops).facesPadded = m.facesPadded := by
  induction ops with
  | nil => intro m; rfl
  | cons op ops ih =>
      intro m
      calc (applyOps (applyOp m op) ops).facesPadded
          = (applyOp m op).facesPadded := ih (applyOp m op)
      _ = m.facesPadded := applyOp_facesPadded m op

theorem applyOps_computeEdges (ops : List MeshOp) :
    ∀ m : MeshesOfMeshes, (applyOps m ops).computeEdges = m.computeEdges := by
  induction ops with
  | nil => intro m; rfl
  | cons op ops ih =>
      intro m
      calc (applyOps (applyOp m op) ops).computeEdges
          = (applyOp m op).computeEdges := ih (applyOp m op)
      _ = m.computeEdges := applyOp_computeEdges m op

theorem applyOps_edgesConsistent (ops : List MeshOp) :
    ∀ m : MeshesOfMeshes, edgesConsistent m →
      edgesConsistent (applyOps m ops) := by
  induction ops with
  | nil => intro m h; exact h
  | cons op ops ih =>
      intro m h
      exact ih (applyOp m op) (applyOp_edgesConsistent m op h)

/-- C10: after construction the container never mutates its face tensor —
no interleaved sequence of `move_verts`, `update_features` and
`edges_packed` calls changes `faces_padded` — and the edges returned by
`edges_packed` are computed once and stay equal to the edges of the
initial faces across any such sequence; a second `edges_packed` call on
the same state returns the cached tensor and leaves the state unchanged. -/
theorem C10_faces_immutable_edges_cached
    (verts faces : Tensor) (features : Option Tensor) (msh : MeshesOfMeshes)
    (hinit : MeshesOfMeshes.init verts faces features = .ok msh)
    (ops : List MeshOp) :
    (applyOps msh ops).faces_padded = msh.faces_padded ∧
    ((applyOps msh ops).edges_packed).1 = (msh.edges_packed).1 ∧
    ((msh.edges_packed).2.edges_packed).1 = (msh.edges_packed).1 ∧
    ((msh.edges_packed).2.edges_packed).2 = (msh.edges_packed).2 := by
  have hcache : msh.edgesCache = none := by
    unfold MeshesOfMeshes.init at hinit
    by_cases h4v : verts.shape.length ≠ 4
    · rw [if_pos h4v] at hinit; cases hinit
    · rw [if_neg h4v] at hinit
      by_cases h4f : faces.shape.length ≠ 4
      · rw [if_pos h4f] at hinit; cases hinit
      · rw [if_neg h4f] at hinit
        cases features with
        | none =>
            rw [← Except.ok.inj hinit]
        | some f =>
            dsimp only at hinit
            by_cases h4ft : f.shape.length ≠ 4
            · rw [if_pos h4ft] at hinit; cases hinit
            · rw [if_neg h4ft] at hinit
              unfold MeshesOfMeshes.update_features at hinit
              by_cases hsh : f.shape.dropLast ≠ verts.shape.dropLast
              · rw [if_pos hsh] at hinit; cases hinit
              · rw [if_neg hsh] at hinit
                rw [← Except.ok.inj hinit]
  have hinv : edgesConsistent msh := Or.inl hcache
  have hinv' : edgesConsistent (applyOps msh ops) :=
    applyOps_edgesConsistent ops msh hinv
  refine ⟨applyOps_facesPadded ops msh, ?_, ?_, ?_⟩
  · rw [edges_packed_fst _ hinv', edges_packed_fst _ hinv,
      applyOps_computeEdges ops msh]
  · have h2 : (msh.edges_packed).2.edgesCache = some msh.computeEdges := by
      simp [MeshesOfMeshes.edges_packed, hcache]
    rw [edges_packed_fst _ hinv]
    simp [MeshesOfMeshes.edges_packed, h2]
    simp [MeshesOfMeshes.edges_packed, hcache]
  · have h2 : (msh.edges_packed).2.edgesCache = some msh.computeEdges := by
      simp [MeshesOfMeshes.edges_packed, hcache]
    simp [MeshesOfMeshes.edges_packed, h2, hcache]

/-- Witness for C10: a concrete construction followed by a `move_verts`,
an `update_features`, and an `edges_packed` call keeps faces and edges
unchanged. -/
theorem C10_witness :
    (applyOps ⟨wVerts, wFaces, none, none, 3⟩
        [.moveVerts wVerts, .edgesPackedCall, .updateFeatures wVerts]).faces_padded =
      (MeshesOfMeshes.faces_padded ⟨wVerts, wFaces, none, none, 3⟩) ∧
    ((applyOps ⟨wVerts, wFaces, none, none, 3⟩
        [.moveVerts wVerts, .edgesPackedCall, .updateFeatures wVerts]).edges_packed).1 =
      ((MeshesOfMeshes.edges_packed ⟨wVerts, wFaces, none, none, 3⟩)).1 ∧
    (((MeshesOfMeshes.edges_packed ⟨wVerts, wFaces, none, none, 3⟩).2.edges_packed)).1 =
      ((MeshesOfMeshes.edges_packed ⟨wVerts, wFaces, none, none, 3⟩)).1 ∧
    (((MeshesOfMeshes.edges_packed ⟨wVerts, wFaces, none, none, 3⟩).2.edges_packed)).2 =
      ((MeshesOfMeshes.edges_packed ⟨wVerts, wFaces, none, none, 3⟩)).2 :=
  C10_faces_immutable_edges_cached wVerts wFaces none
    ⟨wVerts, wFaces, none, none, 3⟩ rfl
    [.moveVerts wVerts, .edgesPackedCall, .updateFeatures wVerts]

end C10

section PaddedPacked

/-- `pack` of `vox2organ/utils/utils_padded_packed.py`: unbind the padded
(N, M, Fmax, w) tensor along the structure dimension, cut structure `i`
to its true length `lengths[i]`, flatten the batch and length dimensions,
and concatenate the per-structure pieces. -/
def pack (padded : List (List (List (List Int)))) (lengths : List Nat) :
    List (List Int) :=
  ((List.range (padded.headD []).length).map (fun i =>
    (padded.map (fun sample =>
      (sample.getD i []).take (lengths.getD i 0))).flatten)).flatten

/-- The slicing loop of `unpack`: structure `i` takes the next
`batchsize * lengths[i]` packed rows and views them as
(batchsize, lengths[i], w). -/
def unpackCutList (packed : List (List Int)) :
    List Nat → Nat → List (List (List (List Int)))
  | [], _ => []
  | l :: ls, b =>
      chunkN b (packed.take (b * l)) l ::
        unpackCutList (packed.drop (b * l)) ls b

/-- `zero_pad_max_length` with `dimension=1`: recompute the dim-1 sizes,
pad every tensor along its length dimension with zero rows up to the
maximum size. -/
def zeroPadMaxLength (cuts : List (List (List (List Int)))) :
    List (List (List (List Int))) :=
  let sizes := cuts.map (fun c => (c.headD []).length)
  let maxlen := sizes.foldr Nat.max 0
  List.zipWith (fun c sz => c.map (fun sample =>
    sample ++ List.replicate (maxlen - sz)
      (List.replicate (sample.headD []).length 0))) cuts sizes

/-- `unpack`: slice per structure, zero-pad to the maximum length, stack
into (M, N, maxlen, w) and permute to (N, M, maxlen, w).  With fewer than
two structures the source raises (`data[1]` in `zero_pad_max_length` for
M = 1, `max` of an empty tensor for M = 0; for M = 1 `squeeze(0)` would
also collapse the structure dimension and the 4-axis `permute` fail), so
the error paths are modelled as `none`. -/
def unpack (packed : List (List Int)) (lengths : List Nat) (batchsize : Nat) :
    Option (List (List (List (List Int)))) :=
  let cuts := unpackCutList packed lengths batchsize
  if cuts.length ≤ 1 then none
  else
    let padded := zeroPadMaxLength cuts
    some ((List.range batchsize).map (fun n => padded.map (fun t => t.getD n [])))

/-- The packed→padded→packed round trip of the claim. -/
def unpackThenPack (packed : List (List Int)) (lengths : List Nat)
    (batchsize : Nat) : Option (List (List Int)) :=
  (unpack packed lengths batchsize).map (fun p => pack p lengths)

theorem chunkN_length {α : Type} (b : Nat) :
    ∀ (rows : List α) (l : Nat), (chunkN b rows l).length = b := by
  induction b with
  | zero => intro rows l; rfl
  | succ b ih => intro rows l; simp [chunkN, ih]

theorem chunkN_flatten {α : Type} (b : Nat) :
    ∀ (rows : List α) (l : Nat), rows.length = b * l →
      (chunkN b rows l).flatten = rows := by
  induction b with
  | zero =>
      intro rows l h
      have : rows = [] := List.length_eq_zero.mp (by omega)
      simp [chunkN, this]
  | succ b ih =>
      intro rows l h
      have hmul : (b + 1) * l = b * l + l := by ring
      have hdrop : (rows.drop l).length = b * l := by
        simp only [List.length_drop]; omega
      simp only [chunkN, List.flatten_cons, ih (rows.drop l) l hdrop]
      exact List.take_append_drop l rows

theorem range_map_chunk {α : Type} (b : Nat) :
    ∀ (rows : List α) (l : Nat),
      (List.range b).map (fun n => (rows.drop (n * l)).take l) =
        chunkN b rows l := by
  induction b with
  | zero => intro rows l; rfl
  | succ b ih =>
      intro rows l
      rw [List.range_succ_eq_map, List.map_cons, List.map_map]
      have hfun : ((fun n => (rows.drop (n * l)).take l) ∘ Nat.succ) =
          (fun n => ((rows.drop l).drop (n * l)).take l) := by
        funext n
        simp only [Function.comp, List.drop_drop]
        have h2 : Nat.succ n * l = l + n * l := by rw [Nat.succ_mul]; omega
        rw [h2]
      rw [hfun, ih (rows.drop l) l]
      simp [chunkN]

theorem chunkN_getD {α : Type} (b : Nat) (rows : List α) (l n : Nat)
    (hn : n < b) :
    (chunkN b rows l).getD n [] = (rows.drop (n * l)).take l := by
  rw [List.getD_eq_getElem?_getD, chunkN_getElem b rows l n hn]
  rfl

theorem unpackCutList_length (lengths : List Nat) :
    ∀ (packed : List (List Int)) (b : Nat),
      (unpackCutList packed lengths b).length = lengths.length := by
  induction lengths with
  | nil => intro packed b; rfl
  | cons l ls ih => intro packed b; simp [unpackCutList, ih]

theorem unpackCutList_getD (lengths : List Nat) :
    ∀ (packed : List (List Int)) (b i : Nat), i < lengths.length →
      (unpackCutList packed lengths b).getD i [] =
        chunkN b ((packed.drop (b * (lengths.take i).sum)).take
          (b * lengths.getD i 0)) (lengths.getD i 0) := by
  induction lengths with
  | nil => intro packed b i h; simp at h
  | cons l ls ih =>
      intro packed b i h
      cases i with
      | zero => simp [unpackCutList]
      | succ i =>
          have hi : i < ls.length := by simpa using h
          simp only [unpackCutList, List.getD_cons_succ, List.take_succ_cons,
            List.sum_cons, List.getD_cons_succ]
          rw [ih (packed.drop (b * l)) b i hi, List.drop_drop]
          have h2 : b * l + b * (ls.take i).sum =
              b * (l + (ls.take i).sum) := by ring
          rw [h2]

theorem sum_take_getD_le (l : List Nat) :
    ∀ i : Nat, i < l.length → (l.take i).sum + l.getD i 0 ≤ l.sum := by
  induction l with
  | nil => intro i h; simp at h
  | cons a l ih =>
      intro i h
      cases i with
      | zero => simp
      | succ i =>
          have hi : i < l.length := by simpa using h
          simp only [List.take_succ_cons, List.sum_cons, List.getD_cons_succ]
          have := ih i hi
          omega

theorem segments_flatten (lengths : List Nat) :
    ∀ (packed : List (List Int)) (b : Nat),
      packed.length = b * lengths.sum →
      ((List.range lengths.length).map (fun i =>
        (packed.drop (b * (lengths.take i).sum)).take
          (b * lengths.getD i 0))).flatten = packed := by
  induction lengths with
  | nil =>
      intro packed b h
      have : packed = [] := List.length_eq_zero.mp (by simpa using h)
      simp [this]
  | cons l ls ih =>
      intro packed b h
      rw [List.length_cons, List.range_succ_eq_map, List.map_cons,
        List.map_map]
      have hfun : ((fun i => (packed.drop (b * ((l :: ls).take i).sum)).take
          (b * (l :: ls).getD i 0)) ∘ Nat.succ) =
          (fun i => ((packed.drop (b * l)).drop (b * (ls.take i).sum)).take
            (b * ls.getD i 0)) := by
        funext i
        simp only [Function.comp, List.take_succ_cons, List.sum_cons,
          List.getD_cons_succ, List.drop_drop]
        have h2 : b * (l + (ls.take i).sum) =
            b * l + b * (ls.take i).sum := by ring
        rw [h2]
      rw [hfun]
      have hlen : (packed.drop (b * l)).length = b * ls.sum := by
        simp only [List.length_drop]
        have : b * (l + ls.sum) = b * l + b * ls.sum := by ring
        simp only [List.sum_cons] at h
        omega
      have hrest := ih (packed.drop (b * l)) b hlen
      simp only [List.flatten_cons, hrest]
      simp only [List.take_nil, List.sum_nil, Nat.mul_zero, List.drop_zero,
        List.getD_cons_zero]
      exact List.take_append_drop (b * l) packed

theorem getElem?_eq_some_getD {α : Type} (l : List α) (i : Nat) (d : α)
    (h : i < l.length) : l[i]? = some (l.getD i d) := by
  rw [List.getD_eq_getElem?_getD, List.getElem?_eq_getElem h]
  rfl

theorem getD_map_of_lt {α β : Type} (f : α → β) (l : List α) (n : Nat)
    (d : β) (d' : α) (h : n < l.length) :
    (l.map f).getD n d = f (l.getD n d') := by
  rw [List.getD_eq_getElem?_getD, List.getElem?_map,
    getElem?_eq_some_getD l n d' h]
  rfl

theorem zeroPadMaxLength_length (cuts : List (List (List (List Int)))) :
    (zeroPadMaxLength cuts).length = cuts.length := by
  unfold zeroPadMaxLength
  rw [List.length_zipWith, List.length_map]
  omega

theorem zeroPadMaxLength_getD (cuts : List (List (List (List Int)))) (i : Nat)
    (hi : i < cuts.length) :
    (zeroPadMaxLength cuts).getD i [] =
      (cuts.getD i []).map (fun sample =>
        sample ++ List.replicate
          (((cuts.map (fun c => (c.headD []).length)).foldr Nat.max 0)
            - ((cuts.getD i []).headD []).length)
          (List.replicate (sample.headD []).length 0)) := by
  have h1 : cuts[i]? = some (cuts.getD i []) := getElem?_eq_some_getD cuts i [] hi
  have h2 : (cuts.map (fun c => (c.headD []).length))[i]? =
      some ((cuts.getD i []).headD []).length := by
    rw [List.getElem?_map, h1]
    rfl
  unfold zeroPadMaxLength
  rw [List.getD_eq_getElem?_getD, zipWith_getElem _ _ _ i _ _ h1 h2]
  rfl

/-- C3 (amended): for every valid configuration with at least two
structures — positive per-structure lengths, positive batch size, and a
packed tensor of exactly `batchsize * lengths.sum` rows — the
packed→padded→packed round trip reproduces the packed tensor exactly. -/
theorem C3_roundtrip_multi_structure
    (packed : List (List Int)) (lengths : List Nat) (b : Nat)
    (hM : 2 ≤ lengths.length) (hb : 0 < b)
    (hpos : ∀ l ∈ lengths, 0 < l)
    (hlen : packed.length = b * lengths.sum) :
    unpackThenPack packed lengths b = some packed := by
  have hcl : (unpackCutList packed lengths b).length = lengths.length :=
    unpackCutList_length lengths packed b
  have hguard : ¬((unpackCutList packed lengths b).length ≤ 1) := by omega
  have hunp : unpack packed lengths b =
      some ((List.range b).map (fun n =>
        (zeroPadMaxLength (unpackCutList packed lengths b)).map
          (fun t => t.getD n []))) := by
    unfold unpack
    rw [if_neg hguard]
  unfold unpackThenPack
  rw [hunp, Option.map_some']
  congr 1
  -- abbreviations
  have hpadlen :
      (zeroPadMaxLength (unpackCutList packed lengths b)).length =
        lengths.length := by rw [zeroPadMaxLength_length, hcl]
  -- the head of the permuted result has one entry per structure
  have hhead : (((List.range b).map (fun n =>
      (zeroPadMaxLength (unpackCutList packed lengths b)).map
        (fun t => t.getD n []))).headD []).length = lengths.length := by
    cases b with
    | zero => omega
    | succ b' =>
        rw [List.range_succ_eq_map, List.map_cons]
        simp only [List.headD_cons]
        rw [List.length_map, hpadlen]
  -- per-structure reconstruction
  have hslice : ∀ i, i < lengths.length →
      (((List.range b).map (fun n =>
        (zeroPadMaxLength (unpackCutList packed lengths b)).map
          (fun t => t.getD n []))).map (fun sample =>
            (sample.getD i []).take (lengths.getD i 0))).flatten =
      (packed.drop (b * (lengths.take i).sum)).take
        (b * lengths.getD i 0) := by
    intro i hi
    have hsum := sum_take_getD_le lengths i hi
    have hsum' : b * (lengths.take i).sum + b * lengths.getD i 0 ≤
        b * lengths.sum := by
      have := Nat.mul_le_mul_left b hsum
      rw [Nat.mul_add] at this
      omega
    have hslicelen : ((packed.drop (b * (lengths.take i).sum)).take
        (b * lengths.getD i 0)).length = b * lengths.getD i 0 := by
      rw [List.length_take, List.length_drop]
      omega
    have hcutsi : (unpackCutList packed lengths b).getD i [] =
        chunkN b ((packed.drop (b * (lengths.take i).sum)).take
          (b * lengths.getD i 0)) (lengths.getD i 0) :=
      unpackCutList_getD lengths packed b i hi
    have hci : i < (unpackCutList packed lengths b).length := by omega
    have hpadi := zeroPadMaxLength_getD (unpackCutList packed lengths b) i hci
    rw [List.map_map]
    have hpoint : ∀ n ∈ List.range b,
        (((fun sample => (sample.getD i []).take (lengths.getD i 0)) ∘
          (fun n => (zeroPadMaxLength (unpackCutList packed lengths b)).map
            (fun t => t.getD n []))) n) =
        ((((packed.drop (b * (lengths.take i).sum)).take
          (b * lengths.getD i 0)).drop (n * lengths.getD i 0)).take
            (lengths.getD i 0)) := by
      intro n hn
      have hnb : n < b := List.mem_range.mp hn
      simp only [Function.comp]
      have hmget : ((zeroPadMaxLength (unpackCutList packed lengths b)).map
          (fun t => t.getD n [])).getD i [] =
          ((zeroPadMaxLength (unpackCutList packed lengths b)).getD i
            []).getD n [] :=
        getD_map_of_lt _ _ i [] [] (by omega)
      rw [hmget, hpadi, hcutsi]
      have hchunklen : (chunkN b ((packed.drop
          (b * (lengths.take i).sum)).take (b * lengths.getD i 0))
          (lengths.getD i 0)).length = b := chunkN_length b _ _
      have hchget : (chunkN b ((packed.drop
          (b * (lengths.take i).sum)).take (b * lengths.getD i 0))
          (lengths.getD i 0)).getD n [] =
          (((packed.drop (b * (lengths.take i).sum)).take
            (b * lengths.getD i 0)).drop (n * lengths.getD i 0)).take
              (lengths.getD i 0) := chunkN_getD b _ _ n hnb
      rw [getD_map_of_lt _ _ n [] [] (by rw [hchunklen]; omega)]
      rw [hchget]
      have htakelen : ((((packed.drop (b * (lengths.take i).sum)).take
          (b * lengths.getD i 0)).drop (n * lengths.getD i 0)).take
            (lengths.getD i 0)).length = lengths.getD i 0 := by
        rw [List.length_take, List.length_drop, hslicelen]
        have hnl : n * lengths.getD i 0 + lengths.getD i 0 ≤
            b * lengths.getD i 0 := by
          have h3 : (n + 1) * lengths.getD i 0 ≤ b * lengths.getD i 0 :=
            Nat.mul_le_mul_right _ (by omega)
          have h4 : (n + 1) * lengths.getD i 0 =
              n * lengths.getD i 0 + lengths.getD i 0 := by ring
          omega
        omega
      exact List.take_left' htakelen
    rw [List.map_congr_left hpoint, range_map_chunk b _ (lengths.getD i 0),
      chunkN_flatten b _ (lengths.getD i 0) hslicelen]
  -- assemble: pack of the permuted result is the original packed tensor
  unfold pack
  rw [hhead]
  rw [List.map_congr_left (fun i hi => hslice i (List.mem_range.mp hi))]
  exact segments_flatten lengths packed b hlen

/-- C3 counterexample: the single-structure configuration `M = 1`
(lengths `[1]`, batch size 1, packed tensor with one row) is valid, yet
`unpack` raises, so the round trip does not return the packed tensor. -/
theorem C3_counterexample :
    (([[(0 : Int)]] : List (List Int)).length = 1 * ([1] : List Nat).sum) ∧
    (∀ l ∈ ([1] : List Nat), 0 < l) ∧
    unpackThenPack [[(0 : Int)]] [1] 1 ≠ some [[(0 : Int)]] := by
  refine ⟨by decide, by decide, ?_⟩
  decide

/-- Witness for C3 at `M = 2` structures, lengths `[1, 2]`, batch size 1:
the amended round trip holds on a concrete packed tensor. -/
theorem C3_witness :
    unpackThenPack [[0, 1, 2], [3, 4, 5], [6, 7, 8]] [1, 2] 1 =
      some [[0, 1, 2], [3, 4, 5], [6, 7, 8]] :=
  C3_roundtrip_multi_structure [[0, 1, 2], [3, 4, 5], [6, 7, 8]] [1, 2] 1
    (by decide) (by decide) (by decide) (by decide)

end PaddedPacked

/-- C2 scratch example: two 4D tensors with differing leading dimensions. -/
def vertsMismatch : Tensor :=
  { shape := [1, 2, 2, 3], data := List.replicate 12 0 }

/-- C2 scratch example: face tensor whose batch/structure dims disagree
with `vertsMismatch`. -/
def facesMismatch : Tensor :=
  { shape := [2, 1, 2, 3], data := List.replicate 12 0 }

/-- C2: the claim asserts construction fails for every pair of 4D tensors
whose leading two dimensions differ; the code accepts them.  Concrete
counterexample: verts shaped (1,2,2,3) and faces shaped (2,1,2,3) are both
4D, their leading dimensions disagree, yet `__init__` succeeds. -/
theorem C2_counterexample :
    vertsMismatch.shape.length = 4 ∧ facesMismatch.shape.length = 4 ∧
    vertsMismatch.shape.take 2 ≠ facesMismatch.shape.take 2 ∧
    (MeshesOfMeshes.init vertsMismatch facesMismatch none).isOk = true := by
  decide

/-- C2 (amended): construction of a `MeshesOfMeshes` without features
succeeds exactly when both the vertex and the face tensors are 4D; the
batch/structure dimensions of vertices and faces are never compared. -/
theorem C2_init_validates_only_rank (verts faces : Tensor) :
    (MeshesOfMeshes.init verts faces none).isOk = true ↔
      (verts.shape.length = 4 ∧ faces.shape.length = 4) := by
  unfold MeshesOfMeshes.init
  constructor
  · intro h
    by_cases hv : verts.shape.length = 4
    · by_cases hf : faces.shape.length = 4
      · exact ⟨hv, hf⟩
      · simp [hv, hf, Except.isOk, Except.toBool] at h
    · simp [hv, Except.isOk, Except.toBool] at h
  · rintro ⟨hv, hf⟩
    simp [hv, hf, Except.isOk, Except.toBool]

section GraphDecoderModel

/-- Post-construction state of the `GraphDecoder` of
`src/models/graph_net.py` (the validated configuration fields; the layer
modules, which are external graph-convolution strategies, and the template
loading are not part of the validation logic). -/
structure GraphDecoder where
  latent_features_count : List Nat
  num_steps : Nat
  aggregate_indices : List (Nat × Nat)
  unpool_indices : List Nat
  use_adoptive_unpool : Bool
  propagate_coords : Bool
  weighted_edges : Bool
  deriving DecidableEq

/-- `GraphDecoder.__init__` validation: the assert on the three per-step
list lengths (Python evaluates `len(graph_channels) - 1` over the
integers), the `ValueError` for edge weighting without coordinate
propagation, and the `unpool_indices` setter re-check.  The
`use_adoptive_unpool` setter stores the flag without any check. -/
def GraphDecoder.init (graph_channels : List Nat)
    (aggregate_indices : List (Nat × Nat)) (unpool_indices : List Nat)
    (use_adoptive_unpool weighted_edges propagate_coords : Bool) :
    Except String GraphDecoder :=
  if ¬((graph_channels.length : Int) - 1 = aggregate_indices.length ∧
       (aggregate_indices.length : Int) = unpool_indices.length) then
    .error "Graph channels, aggregation indices, and unpool indices must match the number of mesh decoder steps."
  else if weighted_edges ∧ ¬propagate_coords then
    .error "Edge weighing requires propagation of vertex coordinates to the graph convs."
  else if (unpool_indices.length : Int) ≠ (graph_channels.length : Int) - 1 then
    .error "Invalid unpool indices."
  else
    .ok { latent_features_count := graph_channels,
          num_steps := graph_channels.length - 1,
          aggregate_indices := aggregate_indices,
          unpool_indices := unpool_indices,
          use_adoptive_unpool := use_adoptive_unpool,
          propagate_coords := propagate_coords,
          weighted_edges := weighted_edges }

/-- The decoder-step loop of `GraphDecoder.forward`, abstracted over the
mesh representation `μ`, the displacement representation `δ`, the
unpooling operation and the per-step network computation (feature
aggregation, residual graph-conv blocks, feature-to-vertex layer and
connector, which are external capabilities).  Faithful to the control
flow: the previous mesh is unpooled when the step's flag is 1, the step
network runs, and the `NotImplementedError` for adoptive unpooling is
raised after the step computation, before the results are appended. -/
def forwardLoop {μ δ : Type} (adoptive : Bool) (unpoolFn : μ → μ)
    (stepNet : Nat → μ → μ × δ) :
    Nat → List (Nat × (Nat × Nat)) → μ → List μ → List (Option δ) →
    Except String (List μ × List (Option δ))
  | _, [], _, meshes, deltas => .ok (meshes, deltas)
  | i, (do_unpool, _agg) :: rest, prev, meshes, deltas =>
      let cur := if do_unpool = 1 then unpoolFn prev else prev
      let step := stepNet i cur
      if do_unpool = 1 ∧ adoptive = true then
        .error "Adoptive unpooling changes the number of vertices for each mesh which is currently expected to lead to problems."
      else
        forwardLoop adoptive unpoolFn stepNet (i + 1) rest step.1
          (meshes ++ [step.1]) (deltas ++ [some step.2])

/-- `GraphDecoder.forward`: start from the template-derived initial mesh,
with `pred_meshes = [temp_meshes]` and `pred_deltaV = [None]`, and run
the decoder steps over the zipped per-step configuration. -/
def GraphDecoder.forward {μ δ : Type} (dec : GraphDecoder) (initMesh : μ)
    (unpoolFn : μ → μ) (stepNet : Nat → μ → μ × δ) :
    Except String (List μ × List (Option δ)) :=
  forwardLoop dec.use_adoptive_unpool unpoolFn stepNet 0
    (dec.unpool_indices.zip dec.aggregate_indices) initMesh
    [initMesh] [none]

theorem graphDecoderInit_ok_elim (graph_channels : List Nat)
    (aggregate_indices : List (Nat × Nat)) (unpool_indices : List Nat)
    (adoptive weighted prop : Bool) (dec : GraphDecoder)
    (h : GraphDecoder.init graph_channels aggregate_indices unpool_indices
      adoptive weighted prop = .ok dec) :
    dec = { latent_features_count := graph_channels,
            num_steps := graph_channels.length - 1,
            aggregate_indices := aggregate_indices,
            unpool_indices := unpool_indices,
            use_adoptive_unpool := adoptive,
            propagate_coords := prop,
            weighted_edges := weighted } ∧
    (graph_channels.length : Int) - 1 = aggregate_indices.length ∧
    (aggregate_indices.length : Int) = unpool_indices.length := by
  unfold GraphDecoder.init at h
  by_cases h1 : ¬((graph_channels.length : Int) - 1 = aggregate_indices.length ∧
      (aggregate_indices.length : Int) = unpool_indices.length)
  · rw [if_pos h1] at h; cases h
  · rw [if_neg h1] at h
    push_neg at h1
    by_cases h2 : weighted = true ∧ ¬prop = true
    · rw [if_pos h2] at h; cases h
    · rw [if_neg h2] at h
      by_cases h3 : (unpool_indices.length : Int) ≠
          (graph_channels.length : Int) - 1
      · rw [if_pos h3] at h; cases h
      · rw [if_neg h3] at h
        exact ⟨(Except.ok.inj h).symm, h1.1, h1.2⟩

theorem forwardLoop_ok {μ δ : Type} (adoptive : Bool) (unpoolFn : μ → μ)
    (stepNet : Nat → μ → μ × δ) (steps : List (Nat × (Nat × Nat))) :
    ∀ (i : Nat) (prev : μ) (accM : List μ) (accD : List (Option δ))
      (m : List μ) (d : List (Option δ)),
      forwardLoop adoptive unpoolFn stepNet i steps prev accM accD =
        .ok (m, d) →
      (∃ ms : List μ, m = accM ++ ms ∧ ms.length = steps.length) ∧
      ∃ ds : List δ, d = accD ++ ds.map some ∧ ds.length = steps.length := by
  induction steps with
  | nil =>
      intro i prev accM accD m d h
      unfold forwardLoop at h
      obtain ⟨hm, hd⟩ := Prod.mk.inj (Except.ok.inj h)
      subst hm; subst hd
      exact ⟨⟨[], by simp, rfl⟩, [], by simp, rfl⟩
  | cons s rest ih =>
      intro i prev accM accD m d h
      obtain ⟨du, ag⟩ := s
      unfold forwardLoop at h
      by_cases hda : du = 1 ∧ adoptive = true
      · rw [if_pos hda] at h; cases h
      · rw [if_neg hda] at h
        obtain ⟨⟨ms, hms, hmslen⟩, ds, hds, hdslen⟩ := ih (i + 1)
          (stepNet i (if du = 1 then unpoolFn prev else prev)).1
          (accM ++ [(stepNet i (if du = 1 then unpoolFn prev else prev)).1])
          (accD ++ [some (stepNet i (if du = 1 then unpoolFn prev else prev)).2])
          m d h
        constructor
        · refine ⟨(stepNet i (if du = 1 then unpoolFn prev else prev)).1 :: ms,
            ?_, by simp [hmslen]⟩
          rw [hms, List.append_assoc]
          rfl
        · refine ⟨(stepNet i (if du = 1 then unpoolFn prev else prev)).2 :: ds,
            ?_, by simp [hdslen]⟩
          rw [hds, List.append_assoc]
          rfl

theorem forwardLoop_err {μ δ : Type} (adoptive : Bool) (unpoolFn : μ → μ)
    (stepNet : Nat → μ → μ × δ) (steps : List (Nat × (Nat × Nat))) :
    ∀ (i : Nat) (prev : μ) (accM : List μ) (accD : List (Option δ)),
      adoptive = true → (∃ p, (1, p) ∈ steps) →
      ∃ msg, forwardLoop adoptive unpoolFn stepNet i steps prev accM accD =
        .error msg := by
  induction steps with
  | nil =>
      intro i prev accM accD _ hmem
      obtain ⟨p, hp⟩ := hmem
      cases hp
  | cons s rest ih =>
      intro i prev accM accD hado hmem
      obtain ⟨du, ag⟩ := s
      unfold forwardLoop
      by_cases hda : du = 1 ∧ adoptive = true
      · rw [if_pos hda]
        exact ⟨_, rfl⟩
      · rw [if_neg hda]
        obtain ⟨p, hp⟩ := hmem
        rcases List.mem_cons.mp hp with hhead | htail
        · exfalso
          have : du = 1 := by
            have := (Prod.mk.inj hhead.symm).1
            omega
          exact hda ⟨this, hado⟩
        · exact ih (i + 1) _ _ _ hado ⟨p, htail⟩

theorem mem_zip_of_mem_left {α β : Type} (a : α) :
    ∀ (l1 : List α) (l2 : List β), a ∈ l1 → l1.length ≤ l2.length →
      ∃ b, (a, b) ∈ l1.zip l2 := by
  intro l1
  induction l1 with
  | nil => intro l2 h _; cases h
  | cons x xs ih =>
      intro l2 h hlen
      cases l2 with
      | nil => simp at hlen
      | cons y ys =>
          rcases List.mem_cons.mp h with hx | hxs
          · exact ⟨y, by rw [hx]; simp [List.zip]⟩
          · obtain ⟨b, hb⟩ := ih ys hxs (by simpa using hlen)
            exact ⟨b, by simp [List.zip] at hb ⊢; right; exact hb⟩

end GraphDecoderModel

section C1C6C7

/-- C1 counterexample: a configuration with consistent per-step lists and
`use_adoptive_unpool = True` constructs successfully — no configuration
error is raised at construction time. -/
theorem C1_counterexample :
    (GraphDecoder.init [2, 2] [(0, 0)] [1] true false false).isOk = true := by
  rfl

/-- C1 (amended): requesting adaptive unpooling does not fail at
construction; the decoder constructs successfully and the failure is
raised during `forward`, via the `NotImplementedError`, at the first
executed step whose unpool flag is set, before that step's result is
appended — so whenever an unpool step is configured, the whole forward
pass fails. -/
theorem C1_adoptive_unpool_fails_in_forward
    {μ δ : Type} (gc : List Nat) (agg : List (Nat × Nat)) (unp : List Nat)
    (weighted prop : Bool) (dec : GraphDecoder) (initMesh : μ)
    (unpoolFn : μ → μ) (stepNet : Nat → μ → μ × δ)
    (hinit : GraphDecoder.init gc agg unp true weighted prop = .ok dec)
    (hunp : 1 ∈ unp) :
    (GraphDecoder.init gc agg unp true weighted prop).isOk = true ∧
    ∃ msg, dec.forward initMesh unpoolFn stepNet = .error msg := by
  obtain ⟨hdec, h1, h2⟩ := graphDecoderInit_ok_elim gc agg unp true weighted
    prop dec hinit
  constructor
  · rw [hinit]; rfl
  · subst hdec
    unfold GraphDecoder.forward
    apply forwardLoop_err _ _ _ _ 0 initMesh [initMesh] [none] rfl
    have hle : unp.length ≤ agg.length := by omega
    exact mem_zip_of_mem_left 1 unp agg hunp hle

/-- Witness for C1 (amended): the concrete adoptive configuration with an
unpool step constructs fine and its forward pass raises. -/
theorem C1_witness :
    (GraphDecoder.init [2, 2] [(0, 0)] [1] true false false).isOk = true ∧
    ∃ msg, GraphDecoder.forward
        ⟨[2, 2], 1, [(0, 0)], [1], true, false, false⟩ (5 : Nat) id
        (fun i m => (m + 1, i)) = .error msg :=
  C1_adoptive_unpool_fails_in_forward [2, 2] [(0, 0)] [1] false false
    ⟨[2, 2], 1, [(0, 0)], [1], true, false, false⟩ 5 id
    (fun i m => (m + 1, i)) rfl (by decide)

/-- C6: a successful decoder run configured with K steps returns K+1
meshes (the template-derived initial mesh followed by one per step) and
K+1 displacement entries of which exactly the first is `None` and every
later one is the displacement predicted at its step. -/
theorem C6_forward_sequence
    {μ δ : Type} (gc : List Nat) (agg : List (Nat × Nat)) (unp : List Nat)
    (adoptive weighted prop : Bool) (dec : GraphDecoder) (initMesh : μ)
    (unpoolFn : μ → μ) (stepNet : Nat → μ → μ × δ)
    (meshes : List μ) (deltas : List (Option δ))
    (hinit : GraphDecoder.init gc agg unp adoptive weighted prop = .ok dec)
    (hfwd : dec.forward initMesh unpoolFn stepNet = .ok (meshes, deltas)) :
    meshes.length = dec.num_steps + 1 ∧
    deltas.length = dec.num_steps + 1 ∧
    meshes.headD initMesh = initMesh ∧
    ∃ ds : List δ, deltas = none :: ds.map some ∧
      ds.length = dec.num_steps := by
  obtain ⟨hdec, h1, h2⟩ := graphDecoderInit_ok_elim gc agg unp adoptive
    weighted prop dec hinit
  have hnum : unp.length = gc.length - 1 := by omega
  subst hdec
  unfold GraphDecoder.forward at hfwd
  dsimp only at hfwd
  obtain ⟨⟨ms, hms, hmslen⟩, ds, hd, hdl⟩ := forwardLoop_ok _ unpoolFn
    stepNet _ 0 initMesh [initMesh] [none] meshes deltas hfwd
  have hzip : (unp.zip agg).length = gc.length - 1 := by
    rw [List.length_zip]; omega
  refine ⟨?_, ?_, ?_, ds, by simpa using hd,
    (by omega : ds.length = gc.length - 1)⟩
  · rw [hms]
    show ([initMesh] ++ ms).length = (gc.length - 1) + 1
    simp only [List.length_append, List.length_cons, List.length_nil]
    omega
  · rw [hd]
    show ([none] ++ ds.map some).length = (gc.length - 1) + 1
    simp only [List.length_append, List.length_cons, List.length_nil,
      List.length_map]
    omega
  · rw [hms]
    rfl

end C1C6C7

/-- Witness for C6: a one-step decoder run over natural-number meshes
yields two meshes and displacement entries `[none, some 0]`. -/
theorem C6_witness :
    (([5, 6] : List Nat).length =
      (⟨[1, 1], 1, [(0, 0)], [0], false, false, false⟩ :
        GraphDecoder).num_steps + 1) ∧
    (([none, some 0] : List (Option Nat)).length =
      (⟨[1, 1], 1, [(0, 0)], [0], false, false, false⟩ :
        GraphDecoder).num_steps + 1) ∧
    (([5, 6] : List Nat).headD 5 = 5) ∧
    ∃ ds : List Nat, ([none, some 0] : List (Option Nat)) =
        none :: ds.map some ∧
      ds.length = (⟨[1, 1], 1, [(0, 0)], [0], false, false, false⟩ :
        GraphDecoder).num_steps :=
  C6_forward_sequence [1, 1] [(0, 0)] [0] false false false
    ⟨[1, 1], 1, [(0, 0)], [0], false, false, false⟩ 5 id
    (fun i m => (m + 1, i)) [5, 6] [none, some 0] (by rfl) (by rfl)

/-- C7: constructing the decoder fails whenever edge weighting is enabled
without coordinate propagation; and with coordinate propagation enabled
and consistent per-step list lengths, enabling edge weighting never makes
construction fail. -/
theorem C7_edge_weighting_validation
    (gc : List Nat) (agg : List (Nat × Nat)) (unp : List Nat)
    (adoptive weighted prop : Bool) :
    (weighted = true → prop = false →
      (GraphDecoder.init gc agg unp adoptive weighted prop).isOk = false) ∧
    ((gc.length : Int) - 1 = agg.length →
     (agg.length : Int) = unp.length → prop = true →
      (GraphDecoder.init gc agg unp adoptive weighted prop).isOk = true) := by
  constructor
  · intro hw hp
    unfold GraphDecoder.init
    by_cases h1 : ¬((gc.length : Int) - 1 = agg.length ∧
        (agg.length : Int) = unp.length)
    · rw [if_pos h1]; rfl
    · rw [if_neg h1, if_pos ⟨hw, by simp [hp]⟩]; rfl
  · intro h1 h2 hp
    unfold GraphDecoder.init
    rw [if_neg (not_not_intro ⟨h1, h2⟩), if_neg (by simp [hp]),
      if_neg (by omega)]
    rfl

/-- Witness for C7: with consistent lists, edge weighting without
coordinate propagation is rejected and with propagation it is accepted. -/
theorem C7_witness :
    (GraphDecoder.init [2, 2] [(0, 0)] [0] false true false).isOk = false ∧
    (GraphDecoder.init [2, 2] [(0, 0)] [0] false true true).isOk = true :=
  ⟨(C7_edge_weighting_validation [2, 2] [(0, 0)] [0] false true false).1
     rfl rfl,
   (C7_edge_weighting_validation [2, 2] [(0, 0)] [0] false true true).2
     (by decide) (by decide) rfl⟩

section UniformUnpool

/-- Undirected edge in canonical (min, max) order. -/
def normEdge (e : Nat × Nat) : Nat × Nat := if e.1 ≤ e.2 then e else (e.2, e.1)

/-- The three undirected edges of a triangle, in face order. -/
def faceEdges (f : Nat × Nat × Nat) : List (Nat × Nat) :=
  [normEdge (f.1, f.2.1), normEdge (f.2.1, f.2.2), normEdge (f.2.2, f.1)]

/-- Deduplication keeping the first occurrence of each edge, in scan
order. -/
def firstOccurDedup (l : List (Nat × Nat)) : List (Nat × Nat) :=
  l.foldl (fun acc e => if e ∈ acc then acc else acc ++ [e]) []

/-- The unique undirected edges of a face list, ordered by first
occurrence when scanning faces in canonical order. -/
def uniqueEdges (faces : List (Nat × Nat × Nat)) : List (Nat × Nat) :=
  firstOccurDedup (faces.flatMap faceEdges)

/-- A single mesh: vertex positions and triangular faces. -/
structure SpecMesh where
  verts : List (ℚ × ℚ × ℚ)
  faces : List (Nat × Nat × Nat)
  deriving DecidableEq

/-- Arithmetic mean of two vertex positions. -/
def edgeMidpoint (a b : ℚ × ℚ × ℚ) : ℚ × ℚ × ℚ :=
  ((a.1 + b.1) / 2, (a.2.1 + b.2.1) / 2, (a.2.2 + b.2.2) / 2)

/-- Modelled from the spec: `uniform_unpool` of
`utils/utils_voxel2mesh/unpooling.py` is imported by
`src/models/graph_net.py` but its source file is not in the repository
snapshot.  Following §4.2 of the spec: enumerate the unique undirected
edges in first-occurrence scan order, append one midpoint vertex per
unique edge after the existing vertices, and replace every triangle
(v0, v1, v2) by the three corner triangles and the central midpoint
triangle. -/
def uniform_unpool (m : SpecMesh) : SpecMesh :=
  let E := uniqueEdges m.faces
  let newVerts := E.map (fun e =>
    edgeMidpoint (m.verts.getD e.1 (0, 0, 0)) (m.verts.getD e.2 (0, 0, 0)))
  let midIdx := fun v w => m.verts.length + E.indexOf (normEdge (v, w))
  { verts := m.verts ++ newVerts,
    faces := m.faces.flatMap (fun f =>
      [(f.1, midIdx f.1 f.2.1, midIdx f.2.2 f.1),
       (f.2.1, midIdx f.2.1 f.2.2, midIdx f.1 f.2.1),
       (f.2.2, midIdx f.2.2 f.1, midIdx f.2.1 f.2.2),
       (midIdx f.1 f.2.1, midIdx f.2.1 f.2.2, midIdx f.2.2 f.1)]) }

/-- A tetrahedron-like template: 4 vertices, 4 faces, 6 unique edges. -/
def tetra : SpecMesh :=
  { verts := [(0, 0, 0), (1, 0, 0), (0, 1, 0), (0, 0, 1)],
    faces := [(0, 1, 2), (0, 3, 1), (0, 2, 3), (1, 3, 2)] }

/-- C4 (spec-modelled): one uniform unpooling step yields exactly
V + E_unique vertices and 4·F faces for every input mesh, and the
tetrahedron-like template with V = 4, F = 4, E = 6 yields V = 10,
F = 16. -/
theorem C4_unpool_counts (m : SpecMesh) :
    (uniform_unpool m).verts.length =
      m.verts.length + (uniqueEdges m.faces).length ∧
    (uniform_unpool m).faces.length = 4 * m.faces.length ∧
    (tetra.verts.length = 4 ∧ tetra.faces.length = 4 ∧
      (uniqueEdges tetra.faces).length = 6 ∧
      (uniform_unpool tetra).verts.length = 10 ∧
      (uniform_unpool tetra).faces.length = 16) := by
  refine ⟨?_, ?_, by decide, by decide, by decide, by decide, by decide⟩
  · unfold uniform_unpool
    simp [List.length_append, List.length_map]
  · unfold uniform_unpool
    simp only
    have hflat : ∀ (faces : List (Nat × Nat × Nat))
        (g : (Nat × Nat × Nat) → List (Nat × Nat × Nat)),
        (∀ f, (g f).length = 4) →
        (faces.flatMap g).length = 4 * faces.length := by
      intro faces g hg
      induction faces with
      | nil => rfl
      | cons f fs ih =>
          rw [List.flatMap_cons, List.length_append, ih, List.length_cons,
            hg f]
          ring
    exact hflat m.faces _ (fun f => rfl)

end UniformUnpool

section FeatureAggregation

/-- Clamp a (possibly out-of-range) voxel index into `[0, S - 1]`, as the
spec requires for positions outside the grid. -/
def clampIdx (idx : Int) (S : Nat) : Nat :=
  (min (max idx 0) ((S : Int) - 1)).toNat

/-- Modelled from the spec: the trilinear sampling of
`utils/utils_voxel2meshplusplus/feature_aggregation.py` is imported by
`src/models/graph_net.py` but its source file is not in the repository
snapshot.  Following §4.3: sample the 8 voxels around the continuous
grid position and blend by distance, clamping indices to the grid. -/
def trilinear (f : Nat → Nat → Nat → ℚ) (Sx Sy Sz : Nat)
    (gx gy gz : ℚ) : ℚ :=
  let x0 : Int := ⌊gx⌋
  let y0 : Int := ⌊gy⌋
  let z0 : Int := ⌊gz⌋
  let wx : ℚ := gx - (x0 : ℚ)
  let wy : ℚ := gy - (y0 : ℚ)
  let wz : ℚ := gz - (z0 : ℚ)
  let fv := fun (a b c : Int) => f (clampIdx a Sx) (clampIdx b Sy) (clampIdx c Sz)
  (1 - wx) * (1 - wy) * (1 - wz) * fv x0 y0 z0 +
    wx * (1 - wy) * (1 - wz) * fv (x0 + 1) y0 z0 +
    (1 - wx) * wy * (1 - wz) * fv x0 (y0 + 1) z0 +
    (1 - wx) * (1 - wy) * wz * fv x0 y0 (z0 + 1) +
    wx * wy * (1 - wz) * fv (x0 + 1) (y0 + 1) z0 +
    wx * (1 - wy) * wz * fv (x0 + 1) y0 (z0 + 1) +
    (1 - wx) * wy * wz * fv x0 (y0 + 1) (z0 + 1) +
    wx * wy * wz * fv (x0 + 1) (y0 + 1) (z0 + 1)

/-- Modelled from the spec: the fixed mapping from mesh-normalized
coordinates in [-1, 1] to voxel-grid coordinates in [0, S - 1]. -/
def normToGrid (x : ℚ) (S : Nat) : ℚ := (x + 1) / 2 * ((S : ℚ) - 1)

/-- The normalized coordinate of the center of voxel `i` along an axis of
resolution `S`. -/
def centerCoord (i S : Nat) : ℚ := 2 * (i : ℚ) / ((S : ℚ) - 1) - 1

/-- Modelled from the spec: sampling a feature map at a mesh-normalized
position. -/
def sampleNormalized (f : Nat → Nat → Nat → ℚ) (Sx Sy Sz : Nat)
    (x y z : ℚ) : ℚ :=
  trilinear f Sx Sy Sz (normToGrid x Sx) (normToGrid y Sy) (normToGrid z Sz)

theorem clampIdx_natCast (i S : Nat) (h : i < S) :
    clampIdx (i : Int) S = i := by
  unfold clampIdx
  omega

theorem normToGrid_center (i S : Nat) (hS : 2 ≤ S) (hi : i < S) :
    normToGrid (centerCoord i S) S = (i : ℚ) := by
  unfold normToGrid centerCoord
  have hne : ((S : ℚ) - 1) ≠ 0 := by
    have : (2 : ℚ) ≤ (S : ℚ) := by exact_mod_cast hS
    intro hc
    rw [sub_eq_zero] at hc
    rw [hc] at this
    norm_num at this
  field_simp
  ring

theorem trilinear_at_integer (f : Nat → Nat → Nat → ℚ) (Sx Sy Sz i j k : Nat)
    (hi : i < Sx) (hj : j < Sy) (hk : k < Sz) :
    trilinear f Sx Sy Sz (i : ℚ) (j : ℚ) (k : ℚ) = f i j k := by
  unfold trilinear
  rw [Int.floor_natCast, Int.floor_natCast, Int.floor_natCast]
  push_cast
  simp only [sub_self, zero_mul, mul_zero, sub_zero, add_zero, zero_add,
    one_mul, mul_one]
  rw [clampIdx_natCast i Sx hi, clampIdx_natCast j Sy hj,
    clampIdx_natCast k Sz hk]

/-- C8 (spec-modelled): trilinear feature aggregation sampled exactly at
the voxel-center-equivalent normalized coordinate of an in-range voxel
returns that voxel's stored feature value exactly. -/
theorem C8_trilinear_voxel_center (f : Nat → Nat → Nat → ℚ)
    (Sx Sy Sz i j k : Nat)
    (hSx : 2 ≤ Sx) (hSy : 2 ≤ Sy) (hSz : 2 ≤ Sz)
    (hi : i < Sx) (hj : j < Sy) (hk : k < Sz) :
    sampleNormalized f Sx Sy Sz (centerCoord i Sx) (centerCoord j Sy)
      (centerCoord k Sz) = f i j k := by
  unfold sampleNormalized
  rw [normToGrid_center i Sx hSx hi, normToGrid_center j Sy hSy hj,
    normToGrid_center k Sz hSz hk]
  exact trilinear_at_integer f Sx Sy Sz i j k hi hj hk

/-- Concrete feature map for the C8 witness. -/
def wGrid : Nat → Nat → Nat → ℚ := fun x y z => x + 2 * y + 3 * z

/-- Witness for C8 on a 2×2×2 grid at voxel (1, 1, 1). -/
theorem C8_witness :
    sampleNormalized wGrid 2 2 2 (centerCoord 1 2) (centerCoord 1 2)
      (centerCoord 1 2) = wGrid 1 1 1 :=
  C8_trilinear_voxel_center wGrid 2 2 2 1 1 1 (by decide) (by decide)
    (by decide) (by decide) (by decide) (by decide)

end FeatureAggregation
